import Mathlib

/-!
Verification of the Knot reference manager's citation-extraction and
reference-matching core, as a shallow embedding of the TypeScript source.

Strings are embedded as lists of characters (Str); the JavaScript string
operations used by the source (trim, split, indexOf, includes, regular
expression matching with the exact backtracking order of the JS engine)
are modelled explicitly below.  Similarity scores are rationals.

Sources embedded here:
  - the reference extraction engine (findReferencesSection, parseReferences);
  - the citation matcher (calculateSimilarity, normalizeString, fuzzyMatch,
    findMatchingItems, matchReferencesToLibrary).
-/

namespace Knot

abbrev Str := List Char

/-- JavaScript whitespace class: the characters matched by the regex class
backslash-s and trimmed by String.prototype.trim. -/
def isSpaceJS (c : Char) : Bool :=
  c == ' ' || c == '\t' || c == '\n' || c == '\r' ||
  c.val == 0x0B || c.val == 0x0C || c.val == 0xA0 || c.val == 0x1680 ||
  (0x2000 ≤ c.val && c.val ≤ 0x200A) ||
  c.val == 0x2028 || c.val == 0x2029 || c.val == 0x202F ||
  c.val == 0x205F || c.val == 0x3000 || c.val == 0xFEFF

/-- JavaScript word-character class (regex class backslash-w): ASCII letters,
digits and underscore. -/
def isWordChar (c : Char) : Bool :=
  c.isUpper || c.isLower || c.isDigit || c == '_'

/-- JavaScript line terminators (the characters NOT matched by the regex dot). -/
def isLineTerm (c : Char) : Bool :=
  c == '\n' || c == '\r' || c.val == 0x2028 || c.val == 0x2029

/-- Lowercasing (String.prototype.toLowerCase on the ASCII range). -/
def toLowerStr (s : Str) : Str := s.map Char.toLower

/-- String.prototype.trim: strip leading and trailing whitespace. -/
def trimJS (s : Str) : Str :=
  ((s.dropWhile isSpaceJS).reverse.dropWhile isSpaceJS).reverse

/-- Auxiliary for collapseWs: the flag records whether the previous character
was whitespace (i.e. whether we are inside a run already replaced). -/
def collapseWsAux : Bool → Str → Str
  | _, [] => []
  | inRun, c :: t =>
    if isSpaceJS c then
      if inRun then collapseWsAux true t else ' ' :: collapseWsAux true t
    else c :: collapseWsAux false t

/-- The global replace of every maximal whitespace run by a single space,
i.e. JavaScript replace(whitespace-run regex, single space) with the g flag. -/
def collapseWs (s : Str) : Str := collapseWsAux false s

/-- Head satisfies a predicate (empty list: false). -/
def headSat (p : Char → Bool) (s : Str) : Bool :=
  match s with
  | c :: _ => p c
  | [] => false

/-- Head is a given character. -/
def headIs (s : Str) (c : Char) : Bool := headSat (· == c) s

/-- String.prototype.split on a single character (here: the space character),
as used by fuzzyMatch. Keeps empty chunks, like JavaScript. -/
def splitOnSep (p : Char → Bool) : Str → List Str
  | [] => [[]]
  | c :: t =>
    if p c then [] :: splitOnSep p t
    else
      match splitOnSep p t with
      | [] => [[c]]
      | h :: r => (c :: h) :: r

/-- String.prototype.includes: substring containment. -/
def containsSub : Str → Str → Bool
  | s, t =>
    t.isPrefixOf s ||
      match s with
      | [] => false
      | _ :: r => containsSub r t

/- ------------------------------------------------------------------ -/
/- Data model (src/lib/db.ts), restricted to the fields the matcher and
   the extraction engine read.                                         -/
/- ------------------------------------------------------------------ -/

structure Creator where
  firstName : Option Str
  lastName : Str
deriving DecidableEq, Repr

structure ReferenceItem where
  id : Str
  title : Str
  creators : List Creator
  date : Option Str
  doi : Option Str
deriving DecidableEq, Repr

structure ParsedReference where
  index : Nat
  text : Str
  doi : Option Str
  authors : Option Str
  title : Option Str
  year : Option Str
deriving DecidableEq, Repr

/-- JavaScript truthiness of a string: non-empty. -/
def truthy (s : Str) : Bool := !s.isEmpty

/-- JavaScript truthiness of an optional string field: present and non-empty. -/
def truthyOpt (o : Option Str) : Bool :=
  match o with
  | some s => truthy s
  | none => false

/-- Read an optional string field inside a branch guarded by its truthiness. -/
def getStr (o : Option Str) : Str := o.getD []

/- ------------------------------------------------------------------ -/
/- Citation matcher (calculateSimilarity and friends).                 -/
/- ------------------------------------------------------------------ -/

/-- normalizeString: lowercase, replace every character that is neither a word
character nor whitespace by a space, collapse whitespace runs, trim. -/
def normalizeString (s : Str) : Str :=
  trimJS (collapseWs ((toLowerStr s).map
    (fun c => if isWordChar c || isSpaceJS c then c else ' ')))

/-- The word set of fuzzyMatch: split on the space character, keep words longer
than 2 characters, deduplicate (JavaScript Set). -/
def wordSet (s : Str) : List Str :=
  ((splitOnSep (· == ' ') s).filter (fun w => 2 < w.length)).dedup

/-- fuzzyMatch: Jaccard similarity of the word sets of the two strings. -/
def fuzzyMatch (str1 str2 : Str) : ℚ :=
  let words1 := wordSet str1
  let words2 := wordSet str2
  if words1.length == 0 && words2.length == 0 then 1
  else if words1.length == 0 || words2.length == 0 then 0
  else
    ((words1.filter (fun w => words2.contains w)).length : ℚ) /
      (((words1 ++ words2).dedup).length : ℚ)

/-- DOI signal of calculateSimilarity: weight 10, full score on case-insensitive
equality; participates only when both sides have a truthy DOI. Returns the
(score contribution, weight contribution) pair. -/
def doiPart (reference : ParsedReference) (item : ReferenceItem) : ℚ × ℚ :=
  if truthyOpt reference.doi && truthyOpt item.doi then
    if toLowerStr (getStr reference.doi) = toLowerStr (getStr item.doi) then
      (10, 10)
    else (0, 10)
  else (0, 0)

/-- Year signal: weight 2; the item's year string is produced by the JavaScript
Date library from item.date, which the embedding abstracts as the function
argument getFullYear. -/
def yearPart (getFullYear : Str → Str) (reference : ParsedReference)
    (item : ReferenceItem) : ℚ × ℚ :=
  if truthyOpt reference.year && truthyOpt item.date then
    if getStr reference.year = getFullYear (getStr item.date) then (2, 2)
    else (0, 2)
  else (0, 0)

/-- Title signal: weight 5, scaled by the fuzzy match of the normalized titles. -/
def titlePart (reference : ParsedReference) (item : ReferenceItem) : ℚ × ℚ :=
  if truthyOpt reference.title && truthy item.title then
    (fuzzyMatch (normalizeString (getStr reference.title))
        (normalizeString item.title) * 5, 5)
  else (0, 0)

/-- The lowercased "lastName firstName" string built for each creator by a
JavaScript template literal; an absent firstName renders as the literal
string "undefined", exactly as in JavaScript. -/
def creatorFullName (c : Creator) : Str :=
  toLowerStr (c.lastName ++ ' ' ::
    (match c.firstName with
     | some f => f
     | none => "undefined".toList))

/-- Array.prototype.join with a single space. -/
def joinSpace : List Str → Str
  | [] => []
  | [w] => w
  | w :: ws => w ++ ' ' :: joinSpace ws

/-- Author signal: weight 3; 1.5 if the first creator's lowercased last name
occurs in the normalized reference authors, plus 1.5 scaled by the fuzzy
match against the concatenated creator names. -/
def authorsPart (reference : ParsedReference) (item : ReferenceItem) : ℚ × ℚ :=
  if truthyOpt reference.authors && !item.creators.isEmpty then
    let refAuthors := normalizeString (getStr reference.authors)
    let itemAuthors := joinSpace (item.creators.map creatorFullName)
    let firstScore : ℚ :=
      match item.creators.head? with
      | some firstAuthor =>
        if containsSub refAuthors (toLowerStr firstAuthor.lastName) then 3 / 2
        else 0
      | none => 0
    (firstScore + fuzzyMatch refAuthors itemAuthors * (3 / 2), 3)
  else (0, 0)

/-- The accumulated score of calculateSimilarity. -/
def simScore (getFullYear : Str → Str) (reference : ParsedReference)
    (item : ReferenceItem) : ℚ :=
  (doiPart reference item).1 + (yearPart getFullYear reference item).1 +
    (titlePart reference item).1 + (authorsPart reference item).1

/-- The accumulated total weight of calculateSimilarity. -/
def simWeight (getFullYear : Str → Str) (reference : ParsedReference)
    (item : ReferenceItem) : ℚ :=
  (doiPart reference item).2 + (yearPart getFullYear reference item).2 +
    (titlePart reference item).2 + (authorsPart reference item).2

/-- calculateSimilarity: weighted similarity of a parsed reference against a
library item; 0 when no signal was applicable. -/
def calculateSimilarity (getFullYear : Str → Str) (reference : ParsedReference)
    (item : ReferenceItem) : ℚ :=
  if simWeight getFullYear reference item = 0 then 0
  else simScore getFullYear reference item / simWeight getFullYear reference item

structure MatchResult where
  itemId : Str
  similarity : ℚ
  item : ReferenceItem
deriving DecidableEq, Repr

/-- The descending similarity order used by the sort comparator of
findMatchingItems. -/
def simGE (a b : MatchResult) : Prop := b.similarity ≤ a.similarity

instance : DecidableRel simGE :=
  fun a b => inferInstanceAs (Decidable (b.similarity ≤ a.similarity))

instance : IsTotal MatchResult simGE := ⟨fun a b => le_total b.similarity a.similarity⟩

instance : IsTrans MatchResult simGE :=
  ⟨fun _ _ _ h1 h2 => le_trans h2 h1⟩

/-- findMatchingItems: score every candidate, keep scores at least 0.5, sort
descending by score.  Array.prototype.sort with a consistent comparator is a
stable sort, and any stable sort of a list under a total preorder yields the
same list, so the stable insertion sort models it exactly. -/
def findMatchingItems (getFullYear : Str → Str) (reference : ParsedReference)
    (libraryItems : List ReferenceItem) : List MatchResult :=
  let found := libraryItems.filterMap (fun item =>
    let similarity := calculateSimilarity getFullYear reference item
    if (1 : ℚ) / 2 ≤ similarity then
      some { itemId := item.id, similarity := similarity, item := item }
    else none)
  found.insertionSort simGE

/-- JavaScript Map.prototype.set on an insertion-ordered association list:
an existing key is updated in place, a new key is appended. -/
def mapSet (m : List (Nat × List MatchResult)) (k : Nat)
    (v : List MatchResult) : List (Nat × List MatchResult) :=
  if m.any (fun p => p.1 == k) then
    m.map (fun p => if p.1 == k then (k, v) else p)
  else m ++ [(k, v)]

/-- JavaScript Map.prototype.get. -/
def mapGet (m : List (Nat × List MatchResult)) (k : Nat) :
    Option (List MatchResult) :=
  (m.find? (fun p => p.1 == k)).map (·.2)

/-- The loop body of matchReferencesToLibrary: record the matches of one
reference under its index when there is at least one. -/
def matchStep (getFullYear : Str → Str) (libraryItems : List ReferenceItem)
    (matchMap : List (Nat × List MatchResult)) (reference : ParsedReference) :
    List (Nat × List MatchResult) :=
  let found := findMatchingItems getFullYear reference libraryItems
  if 0 < found.length then mapSet matchMap reference.index found
  else matchMap

/-- matchReferencesToLibrary: map each reference index to its ranked matches,
omitting references with no qualifying match. -/
def matchReferencesToLibrary (getFullYear : Str → Str)
    (references : List ParsedReference) (libraryItems : List ReferenceItem) :
    List (Nat × List MatchResult) :=
  references.foldl (matchStep getFullYear libraryItems) []

/- ------------------------------------------------------------------ -/
/- Reference section locator (findReferencesSection).                  -/
/- ------------------------------------------------------------------ -/

/-- Separator class of the split used by the section locator: a period or a
newline. -/
def dotOrNl (c : Char) : Bool := c == '.' || c == '\n'

/-- All characters of the list are JavaScript whitespace. -/
def allSpaces (s : Str) : Bool := s.all isSpaceJS

/-- After a literal word: either the end (up to trailing whitespace), matching
the tail of the header regexes. -/
def afterOptS (l : Str) : Bool :=
  allSpaces l || (headIs l 's' && allSpaces (l.drop 1))

/-- One or more whitespace characters, then the literal "cited", then trailing
whitespace: the tail of the works cited and literature cited header patterns. -/
def spacedCited (l : Str) : Bool :=
  headSat isSpaceJS l &&
    (let r := l.dropWhile isSpaceJS
     "cited".toList.isPrefixOf r && allSpaces (r.drop 5))

/-- One of the fixed bibliography header patterns, tested case-insensitively on
a whole line (the source regexes are anchored at both ends with optional
trailing whitespace). -/
def isSectionHeader (line : Str) : Bool :=
  let l := toLowerStr line
  ("reference".toList.isPrefixOf l && afterOptS (l.drop 9)) ||
  ("bibliography".toList.isPrefixOf l && allSpaces (l.drop 12)) ||
  ("work".toList.isPrefixOf l &&
    (spacedCited (l.drop 4) ||
      (headIs (l.drop 4) 's' && spacedCited (l.drop 5)))) ||
  ("literature".toList.isPrefixOf l && spacedCited (l.drop 10)) ||
  ("citation".toList.isPrefixOf l && afterOptS (l.drop 8)) ||
  ("参考文献".toList.isPrefixOf line && allSpaces (line.drop 4)) ||
  ("引用文献".toList.isPrefixOf line && allSpaces (line.drop 4))

/-- First index at which t occurs as a prefix of the corresponding suffix of
the scanned list; k is the index of the current suffix. -/
def indexOfAux (t : Str) : Str → Nat → Option Nat
  | [], k => if t.isPrefixOf [] then some k else none
  | c :: r, k => if t.isPrefixOf (c :: r) then some k else indexOfAux t r (k + 1)

/-- String.prototype.indexOf: index of the first occurrence, or -1. -/
def jsIndexOf (s t : Str) : Int :=
  match indexOfAux t s 0 with
  | some i => (i : Int)
  | none => -1

/-- findReferencesSection: split the text on periods and newlines, find the
first segment whose trimmed form matches a header pattern, and return the
index of the first occurrence of that trimmed segment in the text plus its
length; -1 when no segment matches. -/
def findReferencesSection (text : Str) : Int :=
  let lines := splitOnSep dotOrNl text
  match (lines.map trimJS).find? isSectionHeader with
  | some line => jsIndexOf text line + line.length
  | none => -1

/- ------------------------------------------------------------------ -/
/- Reference segmenter (parseReferences): splitting.                   -/
/- ------------------------------------------------------------------ -/

/-- Length of the digit run at the head of the list. -/
def digitRun (s : Str) : Nat := (s.takeWhile Char.isDigit).length

/-- Length of the whitespace run at the head of the list. -/
def spaceRun (s : Str) : Nat := (s.takeWhile isSpaceJS).length

/-- parseInt on a non-empty digit string. -/
def natOfDigits (d : Str) : Nat :=
  d.foldl (fun n c => n * 10 + (c.toNat - '0'.toNat)) 0

/-- An opening bracket, one or more digits, a closing bracket.  The digit run
of the regex is followed by a character that is not a digit, so only the
maximal run can match; the same reasoning applies to every bounded-run
encoding below. -/
def bracketNumAt (s : Str) : Bool :=
  match s with
  | '[' :: t => 0 < digitRun t && headIs (t.drop (digitRun t)) ']'
  | _ => false

/-- A parenthesis, one or more digits, a closing parenthesis. -/
def parenNumAt (s : Str) : Bool :=
  match s with
  | '(' :: t => 0 < digitRun t && headIs (t.drop (digitRun t)) ')'
  | _ => false

/-- One or more digits then a period. -/
def numDotAt (s : Str) : Bool :=
  0 < digitRun s && headIs (s.drop (digitRun s)) '.'

/-- The zero-width lookahead of the first segmentation split: a bracketed
number, or a number-period or parenthesised number at the start of the string
or right after a newline. -/
def numberedSplitPred (atStart : Bool) (s : Str) : Bool :=
  bracketNumAt s ||
  (atStart && numDotAt s) ||
  (match s with
   | '\n' :: t => numDotAt t
   | _ => false) ||
  (atStart && parenNumAt s) ||
  (match s with
   | '\n' :: t => parenNumAt t
   | _ => false)

/-- Consume one character satisfying p. -/
def eatCharP (p : Char → Bool) (s : Str) : Option Str :=
  match s with
  | c :: t => if p c then some t else none
  | [] => none

/-- Consume a run of characters satisfying p of length at least m.  The source
regexes always follow such a run by a character outside the class, so the
greedy maximal run is the only possible match. -/
def eatRunAtLeast (p : Char → Bool) (m : Nat) (s : Str) : Option Str :=
  let n := (s.takeWhile p).length
  if m ≤ n then some (s.drop n) else none

/-- Consume exactly n digits. -/
def eatDigitsExact (n : Nat) (s : Str) : Option Str :=
  if (s.take n).length == n && (s.take n).all Char.isDigit then some (s.drop n)
  else none

/-- The author-name prefix shared by the segmentation lookaheads: an uppercase
letter, at least minLower lowercase letters, a comma, whitespace, an uppercase
letter, a period. -/
def surnameInitial (minLower : Nat) (s : Str) : Option Str :=
  (eatCharP Char.isUpper s).bind fun s1 =>
  (eatRunAtLeast Char.isLower minLower s1).bind fun s2 =>
  (eatCharP (· == ',') s2).bind fun s3 =>
  (eatRunAtLeast isSpaceJS 1 s3).bind fun s4 =>
  (eatCharP Char.isUpper s4).bind fun s5 =>
  eatCharP (· == '.') s5

/-- Lazy bounded gap of non-period characters followed by a continuation: true
if the continuation matches after between 0 and bound non-period characters. -/
def lazyNonDotThen (k : Str → Bool) : Nat → Str → Bool
  | 0, s => k s
  | b + 1, s =>
    k s ||
      match s with
      | c :: t => !(c == '.') && lazyNonDotThen k b t
      | [] => false

/-- An opening parenthesis, four digits, a closing parenthesis. -/
def parenYearAt (s : Str) : Bool :=
  (((eatCharP (· == '(') s).bind (eatDigitsExact 4)).bind
    (eatCharP (· == ')'))).isSome

/-- A comma, whitespace, four digits, a period. -/
def commaYearDotAt (s : Str) : Bool :=
  ((((eatCharP (· == ',') s).bind (eatRunAtLeast isSpaceJS 1)).bind
    (eatDigitsExact 4)).bind (eatCharP (· == '.'))).isSome

/-- Lookahead of the second split: start of string or a whitespace character,
author-name prefix, a gap of at most 100 non-period characters, then a
parenthesised four-digit year. -/
def parenSplitPred (atStart : Bool) (s : Str) : Bool :=
  let core := fun (r : Str) =>
    match surnameInitial 1 r with
    | some rest => lazyNonDotThen parenYearAt 100 rest
    | none => false
  (atStart && core s) ||
  (match s with
   | c :: t => isSpaceJS c && core t
   | [] => false)

/-- Lookahead of the third split: like the second, but with at least two
lowercase letters in the surname and a comma-whitespace-year-period tail. -/
def periodSplitPred (atStart : Bool) (s : Str) : Bool :=
  let core := fun (r : Str) =>
    match surnameInitial 2 r with
    | some rest => lazyNonDotThen commaYearDotAt 100 rest
    | none => false
  (atStart && core s) ||
  (match s with
   | c :: t => isSpaceJS c && core t
   | [] => false)

/-- Lookahead of the last-resort split: a whitespace character then the
author-name prefix. -/
def fallbackSplitPred (_atStart : Bool) (s : Str) : Bool :=
  match s with
  | c :: t => isSpaceJS c && (surnameInitial 2 t).isSome
  | [] => false

/-- The positions, in increasing order, at which a zero-width lookahead split
occurs.  Per the ECMAScript split algorithm a zero-width match at position 0
(or at the end) never produces a split, so only positions at least 1 are
recorded; the predicate receives whether the position is the string start,
which the caret alternatives of the lookaheads test. -/
def lookaheadPositionsAux (p : Bool → Str → Bool) : Str → Nat → List Nat
  | [], _ => []
  | c :: t, k =>
    (if 0 < k && p (k == 0) (c :: t) then [k] else []) ++
      lookaheadPositionsAux p t (k + 1)

/-- Successive differences of an increasing position list. -/
def gapsOf : Nat → List Nat → List Nat
  | _, [] => []
  | prev, q :: rest => (q - prev) :: gapsOf q rest

/-- Cut a list into chunks of the given successive lengths, the remainder
forming the last chunk. -/
def chunksOfGaps : Str → List Nat → List Str
  | s, [] => [s]
  | s, g :: rest => s.take g :: chunksOfGaps (s.drop g) rest

/-- String.prototype.split with a zero-width lookahead regex: cut at every
recorded lookahead position. -/
def splitLookahead (p : Bool → Str → Bool) (s : Str) : List Str :=
  chunksOfGaps s (gapsOf 0 (lookaheadPositionsAux p s 0))

/-- A lookahead split followed by the filter keeping chunks whose trimmed form
is truthy (non-empty). -/
def filteredSplit (p : Bool → Str → Bool) (s : Str) : List Str :=
  (splitLookahead p s).filter (fun l => !(trimJS l).isEmpty)

/-- The segmentation cascade of parseReferences: numbered markers first, then
the author-year lookaheads, each tried when the previous cascade produced
fewer than 3 segments. -/
def segmentReferences (s : Str) : List Str :=
  let l1 := filteredSplit numberedSplitPred s
  if l1.length < 3 then
    let l2 := filteredSplit parenSplitPred s
    if l2.length < 3 then
      let l3 := filteredSplit periodSplitPred s
      if l3.length < 3 then filteredSplit fallbackSplitPred s else l3
    else l2
  else l1

/- ------------------------------------------------------------------ -/
/- Reference segmenter (parseReferences): per-segment extraction.      -/
/- ------------------------------------------------------------------ -/

/-- Four digits bounded by word boundaries on both sides, starting at the head
of the suffix; the left boundary is checked by the caller. -/
def fourDigitToken (s : Str) : Bool :=
  (s.take 4).length == 4 && (s.take 4).all Char.isDigit &&
    (match s.drop 4 with
     | c :: _ => !isWordChar c
     | [] => true)

/-- Scan for a four-digit token with word boundaries; prevW records whether the
character before the current suffix is a word character (false at the start
of the string). -/
def hasYearTokenAux : Bool → Str → Bool
  | _, [] => false
  | prevW, c :: t =>
    (!prevW && fourDigitToken (c :: t)) || hasYearTokenAux (isWordChar c) t

/-- The year-presence test of the segment validation. -/
def hasYearToken (s : Str) : Bool := hasYearTokenAux false s

/-- The four anchored reference-number patterns, tried in order; returns the
captured digit string and the remainder of the segment after the whole match
(including its trailing whitespace). -/
def matchNumberPattern (s : Str) : Option (Str × Str) :=
  (match s with
   | '[' :: t =>
     let d := t.takeWhile Char.isDigit
     if !d.isEmpty && headIs (t.drop d.length) ']' then
       some (d, ((t.drop d.length).drop 1).dropWhile isSpaceJS)
     else none
   | _ => none) <|>
  (let d := s.takeWhile Char.isDigit
   if !d.isEmpty && headIs (s.drop d.length) '.' &&
       headSat isSpaceJS ((s.drop d.length).drop 1) then
     some (d, ((s.drop d.length).drop 1).dropWhile isSpaceJS)
   else none) <|>
  (match s with
   | '(' :: t =>
     let d := t.takeWhile Char.isDigit
     if !d.isEmpty && headIs (t.drop d.length) ')' then
       some (d, ((t.drop d.length).drop 1).dropWhile isSpaceJS)
     else none
   | _ => none) <|>
  (let d := s.takeWhile Char.isDigit
   if !d.isEmpty && headSat isSpaceJS (s.drop d.length) then
     some (d, (s.drop d.length).dropWhile isSpaceJS)
   else none)

/-- The character class of the DOI suffix: the listed punctuation plus letters
and digits (the regex has the case-insensitive flag). -/
def isDoiBodyChar (c : Char) : Bool :=
  c == '-' || c == '.' || c == '_' || c == ';' || c == '(' || c == ')' ||
  c == '/' || c == ':' || c.isUpper || c.isLower || c.isDigit

/-- The DOI pattern anchored at the head of the suffix: the literal 10 and a
period, four to nine digits, a slash, then a non-empty greedy run of body
characters.  The bounded digit group must end exactly at the slash, so the
digit run must have length between 4 and 9. -/
def matchDoiAt (s : Str) : Option Str :=
  match s with
  | '1' :: '0' :: '.' :: t =>
    let d := digitRun t
    if 4 ≤ d && d ≤ 9 then
      match t.drop d with
      | '/' :: u =>
        let body := u.takeWhile isDoiBodyChar
        if !body.isEmpty then
          some ('1' :: '0' :: '.' :: (t.take d ++ '/' :: body))
        else none
      | _ => none
    else none
  | _ => none

/-- First suffix position, scanning left to right, at which the anchored
matcher succeeds: the leftmost-match rule of the JavaScript regex engine. -/
def scanFirst {α : Type} (f : Str → Option α) : Str → Option α
  | [] => f []
  | c :: t => (f (c :: t)) <|> scanFirst f t

/-- First DOI match of the segment text. -/
def extractDoi (text : Str) : Option Str := scanFirst matchDoiAt text

/-- A parenthesised four-digit year anchored at the head, capturing the digits. -/
def yearParenCapture (s : Str) : Option Str :=
  match s with
  | '(' :: t =>
    if (t.take 4).length == 4 && (t.take 4).all Char.isDigit &&
        headIs (t.drop 4) ')' then some (t.take 4)
    else none
  | _ => none

/-- A comma, whitespace, four digits, a period, anchored at the head,
capturing the digits. -/
def yearCommaCapture (s : Str) : Option Str :=
  match s with
  | ',' :: t =>
    if headSat isSpaceJS t then
      let r := t.dropWhile isSpaceJS
      if (r.take 4).length == 4 && (r.take 4).all Char.isDigit &&
          headIs (r.drop 4) '.' then some (r.take 4)
      else none
    else none
  | _ => none

/-- First four-digit token with word boundaries, capturing the digits. -/
def yearAnyAux : Bool → Str → Option Str
  | _, [] => none
  | prevW, c :: t =>
    if !prevW && fourDigitToken (c :: t) then some ((c :: t).take 4)
    else yearAnyAux (isWordChar c) t

/-- Year extraction: a parenthesised year is preferred, then a year between a
comma and a period, then any four-digit token. -/
def extractYear (text : Str) : Option Str :=
  (scanFirst yearParenCapture text) <|>
  (scanFirst yearCommaCapture text) <|>
  yearAnyAux false text

/-- A double or single quote. -/
def isQuoteChar (c : Char) : Bool := c == '"' || c == '\x27'

/-- A period, or the literal In followed by a colon: the terminator
alternation of the title regex. -/
def dotOrIn (s : Str) : Bool := headIs s '.' || "In:".toList.isPrefixOf s

/-- The optional closing quote and the terminator of the title regex; the
greedy optional quote is tried consumed first. -/
def titleEndOk (s : Str) : Bool :=
  (match s with
   | c :: t => isQuoteChar c && dotOrIn t
   | [] => false) || dotOrIn s

/-- The capture group of the title regex: between 10 and 150 characters that
are neither a period nor a double quote, greedy, backtracking from the given
length down to 10 until the terminator matches. -/
def titleGroupTry (s : Str) : Nat → Option Str
  | 0 => none
  | n + 1 =>
    if n + 1 < 10 then none
    else if titleEndOk (s.drop (n + 1)) then some (s.take (n + 1))
    else titleGroupTry s n

/-- The title capture group starting at this position: the greedy bound is the
length of the run of admissible characters, capped at 150. -/
def titleGroupAt (s : Str) : Option Str :=
  titleGroupTry s
    (min 150 ((s.takeWhile (fun c => !(c == '.') && !(c == '"'))).length))

/-- The optional opening quote before the title capture group, tried consumed
first as the greedy optional quantifier does. -/
def titleQuoteGroup (s : Str) : Option Str :=
  match s with
  | c :: t =>
    if isQuoteChar c then
      match titleGroupAt t with
      | some r => some r
      | none => titleGroupAt (c :: t)
    else titleGroupAt (c :: t)
  | [] => none

/-- The mandatory whitespace of the title regex, greedy, backtracking from the
given run length down to 1. -/
def titleSpacesTry (s : Str) : Nat → Option Str
  | 0 => none
  | b + 1 =>
    match titleQuoteGroup (s.drop (b + 1)) with
    | some r => some r
    | none => titleSpacesTry s b

/-- Whitespace then the rest of the title regex at this position. -/
def titleSpacesAt (s : Str) : Option Str := titleSpacesTry s (spaceRun s)

/-- The greedy optional run of closing parentheses and periods right after the
year in the title regex, backtracking from the given run length down to 0. -/
def titleCloseTry (s : Str) : Nat → Option Str
  | 0 => titleSpacesAt s
  | a + 1 =>
    match titleSpacesAt (s.drop (a + 1)) with
    | some r => some r
    | none => titleCloseTry s a

/-- The title regex after its year literal. -/
def titleAfterYear (s : Str) : Option Str :=
  titleCloseTry s ((s.takeWhile (fun c => c == ')' || c == '.')).length)

/-- The whole title regex anchored at the head of the suffix: the year
literal, closing punctuation, whitespace, optional quote, the capture group,
optional quote, terminator; returns the capture. -/
def titleMatchAt (y : Str) (s : Str) : Option Str :=
  if y.isPrefixOf s then titleAfterYear (s.drop y.length) else none

/-- Title extraction: the capture of the first match of the title regex,
trimmed and truncated to 200 characters; the source keeps the title only when
the raw capture is truthy. -/
def extractTitle (text y : Str) : Option Str :=
  (scanFirst (titleMatchAt y) text).bind fun cap =>
    if cap.isEmpty then none else some ((trimJS cap).take 200)

/-- The terminator alternation of the authors regex: the year in parentheses,
or an optional comma, whitespace, the year, then a period or closing
parenthesis; the optional comma is tried consumed first. -/
def yearTailAt (y : Str) (s : Str) : Bool :=
  (match s with
   | '(' :: t => y.isPrefixOf t && headIs (t.drop y.length) ')'
   | _ => false) ||
  (match s with
   | ',' :: t => spaceYearPunct y t
   | _ => false) ||
  spaceYearPunct y s
where
  /-- Whitespace, the year literal, then a period or closing parenthesis. -/
  spaceYearPunct (y : Str) (s : Str) : Bool :=
    headSat isSpaceJS s &&
      (let r := s.dropWhile isSpaceJS
       y.isPrefixOf r && (headIs (r.drop y.length) '.' ||
         headIs (r.drop y.length) ')'))

/-- The lazy capture group of the authors regex: one or more characters that
are not line terminators, as few as possible, followed by the terminator
alternation; acc accumulates the group read so far. -/
def authorGroupAux (y : Str) : Str → Str → Option Str
  | acc, c :: t =>
    if isLineTerm c then none
    else if yearTailAt y t then some (acc ++ [c])
    else authorGroupAux y (acc ++ [c]) t
  | _, [] => none

/-- The authors regex anchored at the head of the suffix, returning the
capture. -/
def authorMatchAt (y : Str) (s : Str) : Option Str := authorGroupAux y [] s

/-- The anchored replace stripping a leading "and" or "from" word (each
requiring trailing whitespace, which the replace also removes). -/
def stripLeadAndFrom (s : Str) : Str :=
  if "and".toList.isPrefixOf s && headSat isSpaceJS (s.drop 3) then
    (s.drop 3).dropWhile isSpaceJS
  else if "from".toList.isPrefixOf s && headSat isSpaceJS (s.drop 4) then
    (s.drop 4).dropWhile isSpaceJS
  else s

/-- Authors extraction: the capture of the first match of the authors regex
(the text before the year), stripped of a leading "and"/"from", whitespace
collapsed, trimmed, truncated to 250 characters; kept only when the raw
capture is truthy. -/
def extractAuthors (text y : Str) : Option Str :=
  (scanFirst (authorMatchAt y) text).bind fun cap =>
    if cap.isEmpty then none
    else some ((trimJS (collapseWs (stripLeadAndFrom cap))).take 250)

/-- Per-segment validation and extraction; count is the number of records
accepted so far, used for the fallback index. Returns none when the segment
is discarded. -/
def processLine (count : Nat) (line : Str) : Option ParsedReference :=
  let trimmed := trimJS line
  if trimmed.isEmpty || trimmed.length < 20 || 1000 < trimmed.length then none
  else if !hasYearToken trimmed then none
  else
    let numbered := matchNumberPattern trimmed
    let index :=
      match numbered with
      | some (d, _) => natOfDigits d
      | none => count + 1
    let text :=
      match numbered with
      | some (_, rest) => trimJS rest
      | none => trimmed
    let doi := extractDoi text
    let year := extractYear text
    let title :=
      match year with
      | some y => extractTitle text y
      | none => none
    let authors0 :=
      match year with
      | some y => extractAuthors text y
      | none => none
    match year with
    | none => none
    | some y =>
      let authors :=
        match authors0 with
        | some a =>
          if !a.isEmpty && (a.length < 3 || headSat Char.isDigit a) then none
          else some a
        | none => none
      some { index := index, text := text.take 500, doi := doi,
             authors := authors, title := title, year := some y }

/-- The accepting loop of parseReferences over the segments. -/
def parseLoop : List Str → List ParsedReference → List ParsedReference
  | [], acc => acc
  | l :: ls, acc =>
    match processLine acc.length l with
    | some r => parseLoop ls (acc ++ [r])
    | none => parseLoop ls acc

/-- parseReferences: segment the references text and validate and extract each
segment in order. -/
def parseReferences (referencesText : Str) : List ParsedReference :=
  parseLoop (segmentReferences referencesText) []

/- ------------------------------------------------------------------ -/
/- Concrete data used to instantiate the theorems.                     -/
/- ------------------------------------------------------------------ -/

/-- A year extractor for instantiations: the identity on the date string. -/
def idYear : Str → Str := fun s => s

def itemNone : ReferenceItem :=
  { id := [], title := [], creators := [], date := none, doi := none }

def refNone : ParsedReference :=
  { index := 1, text := [], doi := none, authors := none, title := none,
    year := none }

def itemA : ReferenceItem :=
  { id := "i1".toList, title := [], creators := [], date := none,
    doi := some "10.1/ab".toList }

def refA : ParsedReference :=
  { index := 1, text := [], doi := some "10.1/ab".toList, authors := none,
    title := none, year := none }

def refB : ParsedReference :=
  { index := 1, text := "b".toList, doi := some "10.1/ab".toList,
    authors := none, title := none, year := none }

def matchA : MatchResult :=
  { itemId := "i1".toList, similarity := 1, item := itemA }

/-- A document in which the trimmed header segment also occurs earlier inside
an ordinary sentence. -/
def ex4Text : Str := "We cite References here.\nReferences\nBody".toList

/-- A references text with three numbered segments; the first produces an
empty extracted title and the second an empty extracted authors string. -/
def c5Text : Str :=
  ("1. aaaaaaaaaaaaaaaaaa 2020           ." ++
   "\n2. and (2020) something longer here." ++
   "\n3. bbb 1999 filler filler filler.").toList

/-- The first record parseReferences extracts from c5Text. -/
def parsedA : ParsedReference :=
  { index := 1, text := "aaaaaaaaaaaaaaaaaa 2020           .".toList,
    doi := none, authors := none, title := some [],
    year := some "2020".toList }

/- ================================================================== -/
/- Theorems.                                                           -/
/- ================================================================== -/

/-- The word sets of fuzzyMatch carry no duplicates. -/
lemma wordSet_nodup (s : Str) : (wordSet s).Nodup := List.nodup_dedup _

lemma fuzzyMatch_nonneg (a b : Str) : 0 ≤ fuzzyMatch a b := by
  unfold fuzzyMatch
  dsimp only
  split
  · exact zero_le_one
  · split
    · exact le_refl 0
    · positivity

lemma fuzzyMatch_le_one (a b : Str) : fuzzyMatch a b ≤ 1 := by
  unfold fuzzyMatch
  dsimp only
  split
  · exact le_refl 1
  · split
    · exact zero_le_one
    · rename_i h1 h2
      have hne : wordSet a ≠ [] := by
        intro he
        simp [he] at h2
      have hdpos : 0 < (((wordSet a ++ wordSet b).dedup).length : ℚ) := by
        rcases List.exists_mem_of_ne_nil _ hne with ⟨x, hx⟩
        have hxd : x ∈ (wordSet a ++ wordSet b).dedup :=
          List.mem_dedup.mpr (List.mem_append_left _ hx)
        exact_mod_cast List.length_pos.mpr (List.ne_nil_of_mem hxd)
      rw [div_le_one hdpos]
      have hnodup : ((wordSet a).filter (fun w => (wordSet b).contains w)).Nodup :=
        (wordSet_nodup a).filter _
      have hsub : ((wordSet a).filter (fun w => (wordSet b).contains w)) ⊆
          (wordSet a ++ wordSet b).dedup := by
        intro x hx
        exact List.mem_dedup.mpr
          (List.mem_append_left _ (List.mem_of_mem_filter hx))
      exact_mod_cast (List.subperm_of_subset hnodup hsub).length_le

lemma doiPart_bounds (reference : ParsedReference) (item : ReferenceItem) :
    0 ≤ (doiPart reference item).1 ∧
      (doiPart reference item).1 ≤ (doiPart reference item).2 ∧
      0 ≤ (doiPart reference item).2 := by
  unfold doiPart
  split_ifs <;> norm_num

lemma yearPart_bounds (getFullYear : Str → Str) (reference : ParsedReference)
    (item : ReferenceItem) :
    0 ≤ (yearPart getFullYear reference item).1 ∧
      (yearPart getFullYear reference item).1 ≤
        (yearPart getFullYear reference item).2 ∧
      0 ≤ (yearPart getFullYear reference item).2 := by
  unfold yearPart
  split_ifs <;> norm_num

lemma titlePart_bounds (reference : ParsedReference) (item : ReferenceItem) :
    0 ≤ (titlePart reference item).1 ∧
      (titlePart reference item).1 ≤ (titlePart reference item).2 ∧
      0 ≤ (titlePart reference item).2 := by
  unfold titlePart
  split_ifs
  · have h0 := fuzzyMatch_nonneg (normalizeString (getStr reference.title))
      (normalizeString item.title)
    have h1 := fuzzyMatch_le_one (normalizeString (getStr reference.title))
      (normalizeString item.title)
    dsimp only
    refine ⟨by nlinarith, by nlinarith, by norm_num⟩
  · norm_num

lemma authorsPart_bounds (reference : ParsedReference) (item : ReferenceItem) :
    0 ≤ (authorsPart reference item).1 ∧
      (authorsPart reference item).1 ≤ (authorsPart reference item).2 ∧
      0 ≤ (authorsPart reference item).2 := by
  unfold authorsPart
  split_ifs
  · dsimp only
    have h0 := fuzzyMatch_nonneg (normalizeString (getStr reference.authors))
      (joinSpace (item.creators.map creatorFullName))
    have h1 := fuzzyMatch_le_one (normalizeString (getStr reference.authors))
      (joinSpace (item.creators.map creatorFullName))
    cases hh : item.creators.head? with
    | none =>
      simp only [hh]
      refine ⟨by nlinarith, by nlinarith, by norm_num⟩
    | some fa =>
      simp only [hh]
      split_ifs <;> refine ⟨by nlinarith, by nlinarith, by norm_num⟩
  · norm_num

lemma simScore_nonneg (getFullYear : Str → Str) (reference : ParsedReference)
    (item : ReferenceItem) : 0 ≤ simScore getFullYear reference item := by
  have b1 := doiPart_bounds reference item
  have b2 := yearPart_bounds getFullYear reference item
  have b3 := titlePart_bounds reference item
  have b4 := authorsPart_bounds reference item
  unfold simScore
  linarith [b1.1, b2.1, b3.1, b4.1]

lemma simWeight_nonneg (getFullYear : Str → Str) (reference : ParsedReference)
    (item : ReferenceItem) : 0 ≤ simWeight getFullYear reference item := by
  have b1 := doiPart_bounds reference item
  have b2 := yearPart_bounds getFullYear reference item
  have b3 := titlePart_bounds reference item
  have b4 := authorsPart_bounds reference item
  unfold simWeight
  linarith [b1.2.2, b2.2.2, b3.2.2, b4.2.2]

lemma simScore_le_weight (getFullYear : Str → Str) (reference : ParsedReference)
    (item : ReferenceItem) :
    simScore getFullYear reference item ≤ simWeight getFullYear reference item := by
  have b1 := doiPart_bounds reference item
  have b2 := yearPart_bounds getFullYear reference item
  have b3 := titlePart_bounds reference item
  have b4 := authorsPart_bounds reference item
  unfold simScore simWeight
  linarith [b1.2.1, b2.2.1, b3.2.1, b4.2.1]

/-- C1: for every ParsedReference and every LibraryItem, calculateSimilarity
returns a value in the closed interval from 0 to 1, and if no signal is
applicable (neither the DOI, year, title nor author signal has data on both
sides, so the accumulated total weight is zero) it returns exactly 0. -/
theorem C1_similarity_in_unit_interval (getFullYear : Str → Str)
    (reference : ParsedReference) (item : ReferenceItem) :
    0 ≤ calculateSimilarity getFullYear reference item ∧
    calculateSimilarity getFullYear reference item ≤ 1 ∧
    (((truthyOpt reference.doi && truthyOpt item.doi) = false ∧
      (truthyOpt reference.year && truthyOpt item.date) = false ∧
      (truthyOpt reference.title && truthy item.title) = false ∧
      (truthyOpt reference.authors && !item.creators.isEmpty) = false) →
      calculateSimilarity getFullYear reference item = 0) := by
  refine ⟨?_, ?_, ?_⟩
  · unfold calculateSimilarity
    split
    · exact le_refl 0
    · exact div_nonneg (simScore_nonneg getFullYear reference item)
        (simWeight_nonneg getFullYear reference item)
  · unfold calculateSimilarity
    split
    · exact zero_le_one
    · rename_i h
      have hw : 0 < simWeight getFullYear reference item :=
        lt_of_le_of_ne (simWeight_nonneg getFullYear reference item) (Ne.symm h)
      rw [div_le_one hw]
      exact simScore_le_weight getFullYear reference item
  · rintro ⟨h1, h2, h3, h4⟩
    have e1 : doiPart reference item = (0, 0) := by
      unfold doiPart
      rw [h1]
      simp
    have e2 : yearPart getFullYear reference item = (0, 0) := by
      unfold yearPart
      rw [h2]
      simp
    have e3 : titlePart reference item = (0, 0) := by
      unfold titlePart
      rw [h3]
      simp
    have e4 : authorsPart reference item = (0, 0) := by
      unfold authorsPart
      rw [h4]
      simp
    have hw : simWeight getFullYear reference item = 0 := by
      unfold simWeight
      rw [e1, e2, e3, e4]
      norm_num
    unfold calculateSimilarity
    rw [if_pos hw]

/-- Witness for C1: a reference and an item with no comparable field score
exactly 0. -/
theorem C1_witness : calculateSimilarity idYear refNone itemNone = 0 :=
  (C1_similarity_in_unit_interval idYear refNone itemNone).2.2
    ⟨rfl, rfl, rfl, rfl⟩

/-- C6: two calculateSimilarity inputs identical except that in one the
reference's DOI matches the item's DOI case-insensitively and in the other it
does not, with both DOIs present, score strictly in favour of the matching
pair. -/
theorem C6_doi_match_dominates (getFullYear : Str → Str)
    (reference : ParsedReference) (item : ReferenceItem) (d1 d2 : Str)
    (h1 : truthy d1 = true) (h2 : truthy d2 = true)
    (hi : truthyOpt item.doi = true)
    (hm : toLowerStr d1 = toLowerStr (getStr item.doi))
    (hn : toLowerStr d2 ≠ toLowerStr (getStr item.doi)) :
    calculateSimilarity getFullYear { reference with doi := some d2 } item <
      calculateSimilarity getFullYear { reference with doi := some d1 } item := by
  obtain ⟨ds, hds⟩ : ∃ ds, item.doi = some ds := by
    cases hd : item.doi with
    | none => rw [hd] at hi; exact absurd hi (by simp [truthyOpt])
    | some s => exact ⟨s, rfl⟩
  have hm' : toLowerStr d1 = toLowerStr ds := by
    rw [hds] at hm; simpa [getStr] using hm
  have hn' : toLowerStr d2 ≠ toLowerStr ds := by
    rw [hds] at hn; simpa [getStr] using hn
  have hts : truthy ds = true := by
    rw [hds] at hi; simpa [truthyOpt] using hi
  have e1 : doiPart { reference with doi := some d1 } item = (10, 10) := by
    unfold doiPart
    rw [hds]
    simp [truthyOpt, getStr, h1, hts, hm']
  have e2 : doiPart { reference with doi := some d2 } item = (0, 10) := by
    unfold doiPart
    rw [hds]
    simp [truthyOpt, getStr, h2, hts, hn']
  have ey : ∀ d, yearPart getFullYear { reference with doi := d } item =
      yearPart getFullYear reference item := fun _ => rfl
  have et : ∀ d, titlePart { reference with doi := d } item =
      titlePart reference item := fun _ => rfl
  have ea : ∀ d, authorsPart { reference with doi := d } item =
      authorsPart reference item := fun _ => rfl
  have hyb := yearPart_bounds getFullYear reference item
  have htb := titlePart_bounds reference item
  have hab := authorsPart_bounds reference item
  unfold calculateSimilarity simScore simWeight
  rw [e1, e2, ey (some d1), ey (some d2), et (some d1), et (some d2),
    ea (some d1), ea (some d2)]
  dsimp only
  have hpos : (0 : ℚ) < 10 + (yearPart getFullYear reference item).2 +
      (titlePart reference item).2 + (authorsPart reference item).2 := by
    linarith [hyb.2.2, htb.2.2, hab.2.2]
  rw [if_neg hpos.ne', if_neg hpos.ne']
  rw [div_lt_div_iff_of_pos_right hpos]
  linarith

/-- Witness for C6 at concrete inputs: a matching DOI beats a differing DOI. -/
theorem C6_witness :
    calculateSimilarity idYear { refNone with doi := some "10.2/xx".toList } itemA <
      calculateSimilarity idYear { refNone with doi := some "10.1/ab".toList } itemA :=
  C6_doi_match_dominates idYear refNone itemA "10.1/ab".toList "10.2/xx".toList
    (by decide) (by decide) (by decide) (by decide) (by decide)

/-- C2: every element returned by findMatchingItems has similarity at least
one half, and the returned list is sorted in descending order of similarity. -/
theorem C2_matches_above_threshold_sorted (getFullYear : Str → Str)
    (reference : ParsedReference) (libraryItems : List ReferenceItem) :
    (∀ m ∈ findMatchingItems getFullYear reference libraryItems,
        (1 : ℚ) / 2 ≤ m.similarity) ∧
    (findMatchingItems getFullYear reference libraryItems).Pairwise
      (fun a b => b.similarity ≤ a.similarity) := by
  constructor
  · intro m hm
    unfold findMatchingItems at hm
    have hmem := (List.perm_insertionSort simGE _).mem_iff.mp hm
    rcases List.mem_filterMap.mp hmem with ⟨item, _, hf⟩
    dsimp only at hf
    split at hf
    · rename_i hcond
      cases hf
      exact hcond
    · cases hf
  · unfold findMatchingItems
    exact List.sorted_insertionSort simGE _

/-- The concrete pair refA, itemA scores exactly 1 (only the DOI signal is
applicable and it matches). -/
lemma calc_refA : calculateSimilarity idYear refA itemA = 1 := by
  have h1 : doiPart refA itemA = (10, 10) := rfl
  have h2 : yearPart idYear refA itemA = (0, 0) := rfl
  have h3 : titlePart refA itemA = (0, 0) := rfl
  have h4 : authorsPart refA itemA = (0, 0) := rfl
  unfold calculateSimilarity simScore simWeight
  rw [h1, h2, h3, h4]
  norm_num

/-- The concrete pair refB, itemA scores exactly 1 as well. -/
lemma calc_refB : calculateSimilarity idYear refB itemA = 1 := by
  have h1 : doiPart refB itemA = (10, 10) := rfl
  have h2 : yearPart idYear refB itemA = (0, 0) := rfl
  have h3 : titlePart refB itemA = (0, 0) := rfl
  have h4 : authorsPart refB itemA = (0, 0) := rfl
  unfold calculateSimilarity simScore simWeight
  rw [h1, h2, h3, h4]
  norm_num

lemma findMatching_refA : findMatchingItems idYear refA [itemA] = [matchA] := by
  unfold findMatchingItems
  dsimp only
  simp only [List.filterMap_cons, List.filterMap_nil]
  rw [calc_refA, if_pos (by norm_num : (1 : ℚ) / 2 ≤ 1)]
  rfl

lemma findMatching_refB : findMatchingItems idYear refB [itemA] = [matchA] := by
  unfold findMatchingItems
  dsimp only
  simp only [List.filterMap_cons, List.filterMap_nil]
  rw [calc_refB, if_pos (by norm_num : (1 : ℚ) / 2 ≤ 1)]
  rfl

/-- Witness for C2: the single qualifying match of a concrete corpus has
similarity at least one half. -/
theorem C2_witness : (1 : ℚ) / 2 ≤ matchA.similarity :=
  (C2_matches_above_threshold_sorted idYear refA [itemA]).1 matchA
    (by rw [findMatching_refA]; exact List.mem_singleton_self matchA)

/-- Overwriting every entry holding the key yields the new value under find?, -/
lemma find?_overwrite (m : List (Nat × List MatchResult)) (k : Nat)
    (v : List MatchResult) (h : m.any (fun p => p.1 == k) = true) :
    (m.map (fun p => if p.1 == k then (k, v) else p)).find?
      (fun p => p.1 == k) = some (k, v) := by
  induction m with
  | nil => simp at h
  | cons p t ih =>
    simp only [List.any_cons, Bool.or_eq_true] at h
    dsimp only [List.map_cons]
    by_cases hp : (p.1 == k) = true
    · rw [if_pos hp]
      exact List.find?_cons_of_pos _ (by simp)
    · rw [if_neg hp,
        @List.find?_cons_of_neg _ (fun q => q.1 == k) p _ hp]
      exact ih (h.resolve_left hp)

/-- Reading back the key just set returns the new value. -/
lemma mapGet_mapSet_self (m : List (Nat × List MatchResult)) (k : Nat)
    (v : List MatchResult) : mapGet (mapSet m k v) k = some v := by
  unfold mapGet mapSet
  split
  · rename_i h
    rw [find?_overwrite m k v h]
    rfl
  · rename_i h
    have hfalse : m.any (fun p => p.1 == k) = false := by
      cases hb : m.any (fun p => p.1 == k)
      · rfl
      · exact absurd hb h
    have hnone : m.find? (fun p => p.1 == k) = none :=
      List.find?_eq_none.mpr (List.any_eq_false.mp hfalse)
    rw [List.find?_append, hnone]
    simp [List.find?]

/-- Setting one key leaves every other key unchanged. -/
lemma mapGet_mapSet_other (m : List (Nat × List MatchResult)) (k : Nat)
    (v : List MatchResult) (k' : Nat) (h : k' ≠ k) :
    mapGet (mapSet m k v) k' = mapGet m k' := by
  have hkk : (k == k') = false := by
    simp only [beq_eq_false_iff_ne, ne_eq]
    exact fun he => h he.symm
  unfold mapGet mapSet
  split
  · rename_i hany
    clear hany
    congr 1
    induction m with
    | nil => rfl
    | cons p t ih =>
      dsimp only [List.map_cons]
      by_cases hp : (p.1 == k) = true
      · have hp1 : p.1 = k := by simpa using hp
        rw [if_pos hp,
          @List.find?_cons_of_neg _ (fun q => q.1 == k') (k, v) _ (by simp [hkk]),
          @List.find?_cons_of_neg _ (fun q => q.1 == k') p _ (by simp [hp1, hkk])]
        exact ih
      · rw [if_neg hp]
        by_cases hq : (p.1 == k') = true
        · rw [@List.find?_cons_of_pos _ (fun q => q.1 == k') p _ hq,
            @List.find?_cons_of_pos _ (fun q => q.1 == k') p _ hq]
        · rw [@List.find?_cons_of_neg _ (fun q => q.1 == k') p _ hq,
            @List.find?_cons_of_neg _ (fun q => q.1 == k') p _ hq]
          exact ih
  · rw [List.find?_append]
    have hone : List.find? (fun p => p.1 == k') [(k, v)] = none := by
      simp [List.find?, hkk]
    rw [hone]
    cases m.find? (fun p => p.1 == k') <;> rfl

/-- Every key present after the matching fold was either present before or was
put there by a reference with that index and a non-empty match list. -/
lemma mapGet_foldl_inv (getFullYear : Str → Str)
    (libraryItems : List ReferenceItem) :
    ∀ (refs : List ParsedReference) (m : List (Nat × List MatchResult))
      (k : Nat) (l : List MatchResult),
      mapGet (refs.foldl (matchStep getFullYear libraryItems) m) k = some l →
      mapGet m k = some l ∨
        ∃ r ∈ refs, r.index = k ∧
          l = findMatchingItems getFullYear r libraryItems ∧ l ≠ [] := by
  intro refs
  induction refs with
  | nil => intro m k l h; exact Or.inl h
  | cons r t ih =>
    intro m k l h
    rw [List.foldl_cons] at h
    rcases ih _ _ _ h with h' | ⟨r', hr', hi', he', hn'⟩
    · unfold matchStep at h'
      dsimp only at h'
      split at h'
      · rename_i hlen
        by_cases hk : r.index = k
        · subst hk
          rw [mapGet_mapSet_self] at h'
          injection h' with he
          exact Or.inr ⟨r, List.mem_cons_self r t, rfl, he.symm,
            he ▸ List.ne_nil_of_length_pos hlen⟩
        · rw [mapGet_mapSet_other _ _ _ _ (fun he => hk he.symm)] at h'
          exact Or.inl h'
      · exact Or.inl h'
    · exact Or.inr ⟨r', List.mem_cons_of_mem r hr', hi', he', hn'⟩

/-- C8: an index is a key of the mapping returned by matchReferencesToLibrary
only if some reference carrying that index has at least one qualifying match,
and no key is ever bound to an empty sequence. -/
theorem C8_matchMap_keys_qualify (getFullYear : Str → Str)
    (references : List ParsedReference) (libraryItems : List ReferenceItem) :
    ∀ k l,
      mapGet (matchReferencesToLibrary getFullYear references libraryItems) k =
        some l →
      l ≠ [] ∧ ∃ r ∈ references, r.index = k ∧
        findMatchingItems getFullYear r libraryItems ≠ [] := by
  intro k l h
  unfold matchReferencesToLibrary at h
  rcases mapGet_foldl_inv getFullYear libraryItems references [] k l h with
    h' | ⟨r, hr, hi, he, hn⟩
  · exact absurd h' (by simp [mapGet, List.find?])
  · exact ⟨hn, r, hr, hi, he ▸ hn⟩

/-- Witness for C8 on a one-reference, one-item corpus. -/
theorem C8_witness :
    [matchA] ≠ [] ∧ ∃ r ∈ [refA], r.index = 1 ∧
      findMatchingItems idYear r [itemA] ≠ [] :=
  C8_matchMap_keys_qualify idYear [refA] [itemA] 1 [matchA] (by
    unfold matchReferencesToLibrary
    rw [List.foldl_cons, List.foldl_nil]
    unfold matchStep
    dsimp only
    rw [findMatching_refA]
    rfl)

/-- A fold over references none of which carries the key leaves that key's
binding unchanged. -/
lemma mapGet_foldl_frozen (getFullYear : Str → Str)
    (libraryItems : List ReferenceItem) (k : Nat) :
    ∀ (refs : List ParsedReference), (∀ r ∈ refs, r.index ≠ k) →
      ∀ m, mapGet (refs.foldl (matchStep getFullYear libraryItems) m) k =
        mapGet m k := by
  intro refs
  induction refs with
  | nil => intro _ m; rfl
  | cons r t ih =>
    intro h m
    rw [List.foldl_cons,
      ih (fun x hx => h x (List.mem_cons_of_mem r hx)) _]
    unfold matchStep
    dsimp only
    split
    · exact mapGet_mapSet_other _ _ _ _ (Ne.symm (h r (List.mem_cons_self r t)))
    · rfl

/-- C10: when two references carry the same index and both have qualifying
matches, the later one (the last reference with that index) owns the final
binding: the earlier match list is overwritten. -/
theorem C10_duplicate_index_overwritten (getFullYear : Str → Str)
    (l1 l2 l3 : List ParsedReference) (r1 r2 : ParsedReference)
    (libraryItems : List ReferenceItem)
    (hidx : r1.index = r2.index)
    (h1 : findMatchingItems getFullYear r1 libraryItems ≠ [])
    (h2 : findMatchingItems getFullYear r2 libraryItems ≠ [])
    (h3 : ∀ r ∈ l3, r.index ≠ r2.index) :
    mapGet (matchReferencesToLibrary getFullYear
        (l1 ++ r1 :: (l2 ++ r2 :: l3)) libraryItems) r2.index =
      some (findMatchingItems getFullYear r2 libraryItems) := by
  unfold matchReferencesToLibrary
  rw [List.foldl_append, List.foldl_cons, List.foldl_append, List.foldl_cons]
  rw [mapGet_foldl_frozen getFullYear libraryItems r2.index l3 h3 _]
  unfold matchStep
  dsimp only
  rw [if_pos (List.length_pos.mpr h2)]
  exact mapGet_mapSet_self _ _ _

/-- Witness for C10: two references with index 1; the mapping holds the later
one's match list. -/
theorem C10_witness :
    mapGet (matchReferencesToLibrary idYear ([] ++ refA :: ([] ++ refB :: []))
        [itemA]) refB.index =
      some (findMatchingItems idYear refB [itemA]) :=
  C10_duplicate_index_overwritten idYear [] [] [] refA refB [itemA] rfl
    (by rw [findMatching_refA]; exact List.cons_ne_nil _ _)
    (by rw [findMatching_refB]; exact List.cons_ne_nil _ _)
    (by intro r hr; cases hr)

/-- C9: on empty input text the segmenter returns an empty sequence of
records (and, being a total function, raises no error). -/
theorem C9_empty_input : parseReferences [] = [] := rfl

/-- A successful scan comes from a successful anchored match at some suffix. -/
lemma scanFirst_some {α : Type} {f : Str → Option α} :
    ∀ {s : Str} {a : α}, scanFirst f s = some a → ∃ s', f s' = some a := by
  intro s
  induction s with
  | nil => intro a h; exact ⟨[], h⟩
  | cons c t ih =>
    intro a h
    unfold scanFirst at h
    cases hf : f (c :: t) with
    | some b =>
      rw [hf] at h
      have hba : some b = some a := h
      exact ⟨c :: t, hf.trans hba⟩
    | none =>
      rw [hf] at h
      exact ih (h : scanFirst f t = some a)

/-- The parenthesised year capture is four characters long. -/
lemma yearParenCapture_len {s y : Str} (h : yearParenCapture s = some y) :
    y.length = 4 := by
  unfold yearParenCapture at h
  split at h
  · split at h
    · rename_i hc
      injection h with h'
      subst h'
      simp only [Bool.and_eq_true, beq_iff_eq] at hc
      exact hc.1.1
    · cases h
  · cases h

/-- The comma-period year capture is four characters long. -/
lemma yearCommaCapture_len {s y : Str} (h : yearCommaCapture s = some y) :
    y.length = 4 := by
  unfold yearCommaCapture at h
  split at h
  · split at h
    · dsimp only at h
      split at h
      · rename_i hc
        injection h with h'
        subst h'
        simp only [Bool.and_eq_true, beq_iff_eq] at hc
        exact hc.1.1
      · cases h
    · cases h
  · cases h

/-- The word-boundary year capture is four characters long. -/
lemma yearAnyAux_len :
    ∀ (b : Bool) (s y : Str), yearAnyAux b s = some y → y.length = 4 := by
  intro b s
  induction s generalizing b with
  | nil => intro y h; cases h
  | cons c t ih =>
    intro y h
    unfold yearAnyAux at h
    split at h
    · rename_i hc
      injection h with h'
      subst h'
      simp only [Bool.and_eq_true] at hc
      have h4 := hc.2
      unfold fourDigitToken at h4
      simp only [Bool.and_eq_true, beq_iff_eq] at h4
      exact h4.1.1
    · exact ih _ _ h

/-- Every year the extractor returns is four characters long. -/
lemma extractYear_len {t y : Str} (h : extractYear t = some y) : y.length = 4 := by
  unfold extractYear at h
  cases h1 : scanFirst yearParenCapture t with
  | some y1 =>
    rw [h1] at h
    have hya : some y1 = some y := h
    injection hya with h'
    subst h'
    rcases scanFirst_some h1 with ⟨s', hs'⟩
    exact yearParenCapture_len hs'
  | none =>
    rw [h1] at h
    cases h2 : scanFirst yearCommaCapture t with
    | some y2 =>
      rw [h2] at h
      have hya : some y2 = some y := h
      injection hya with h'
      subst h'
      rcases scanFirst_some h2 with ⟨s', hs'⟩
      exact yearCommaCapture_len hs'
    | none =>
      rw [h2] at h
      exact yearAnyAux_len false t y h

/-- Every anchored DOI match is non-empty (it starts with the literal 10). -/
lemma matchDoiAt_ne_nil {s d : Str} (h : matchDoiAt s = some d) : d ≠ [] := by
  unfold matchDoiAt at h
  split at h
  · dsimp only at h
    split at h
    · split at h
      · split at h
        · injection h with h'
          subst h'
          exact List.cons_ne_nil _ _
        · cases h
      · cases h
    · cases h
  · cases h

/-- Every extracted title has length at most 200. -/
lemma extractTitle_len {t y ti : Str} (h : extractTitle t y = some ti) :
    ti.length ≤ 200 := by
  unfold extractTitle at h
  cases hs : scanFirst (titleMatchAt y) t with
  | none => rw [hs] at h; cases h
  | some cap =>
    rw [hs, Option.some_bind] at h
    split at h
    · cases h
    · injection h with h'
      subst h'
      exact List.length_take_le _ _

/-- Every extracted authors string has length at most 250. -/
lemma extractAuthors_len {t y au : Str} (h : extractAuthors t y = some au) :
    au.length ≤ 250 := by
  unfold extractAuthors at h
  cases hs : scanFirst (authorMatchAt y) t with
  | none => rw [hs] at h; cases h
  | some cap =>
    rw [hs, Option.some_bind] at h
    split at h
    · cases h
    · injection h with h'
      subst h'
      exact List.length_take_le _ _

/-- A record accepted by processLine carries exactly the fields built from the
extractors on its post-marker text. -/
lemma processLine_spec {count : Nat} {line : Str} {r : ParsedReference}
    (h : processLine count line = some r) :
    ∃ text y, extractYear text = some y ∧
      r.text = text.take 500 ∧ r.year = some y ∧
      r.doi = extractDoi text ∧
      r.title = extractTitle text y ∧
      (r.authors = none ∨ r.authors = extractAuthors text y) := by
  unfold processLine at h
  dsimp only at h
  split at h
  · cases h
  · split at h
    · cases h
    · split at h
      · cases h
      · rename_i y heq
        rw [heq] at h
        dsimp only at h
        injection h with h'
        subst h'
        refine ⟨_, y, heq, rfl, rfl, rfl, rfl, ?_⟩
        dsimp only
        split
        · rename_i o a hae
          split
          · left; rfl
          · right; exact hae.symm
        · left; rfl

/-- Every record produced by the accepting loop was accepted by processLine. -/
lemma parseLoop_mem :
    ∀ (ls : List Str) (acc : List ParsedReference) (r : ParsedReference),
      r ∈ parseLoop ls acc → r ∈ acc ∨ ∃ c l, processLine c l = some r := by
  intro ls
  induction ls with
  | nil => intro acc r h; exact Or.inl h
  | cons l t ih =>
    intro acc r h
    unfold parseLoop at h
    split at h
    · rename_i r' heq
      rcases ih _ _ h with h' | h'
      · rcases List.mem_append.mp h' with h'' | h''
        · exact Or.inl h''
        · exact Or.inr ⟨acc.length, l, List.mem_singleton.mp h'' ▸ heq⟩
      · exact Or.inr h'
    · rcases ih _ _ h with h' | h'
      · exact Or.inl h'
      · exact Or.inr h'

/-- C3: every ParsedReference emitted by the segmenter has a non-empty year
field; a segment from which no four-digit year can be extracted is never
emitted. -/
theorem C3_year_always_present (text : Str) :
    ∀ r ∈ parseReferences text, ∃ y, r.year = some y ∧ y ≠ [] := by
  intro r hr
  rcases parseLoop_mem _ _ _ hr with h | ⟨c, l, hp⟩
  · cases h
  · rcases processLine_spec hp with ⟨t, y, hy, _, hyr, _, _, _⟩
    refine ⟨y, hyr, ?_⟩
    intro he
    have := extractYear_len hy
    simp [he] at this

/-- Witness for C3: the first record extracted from the concrete references
text has a non-empty year. -/
theorem C3_witness : ∃ y, parsedA.year = some y ∧ y ≠ [] :=
  C3_year_always_present c5Text parsedA (by decide)

/-- C7: every emitted record satisfies the documented length bounds: text at
most 500, title (when present) at most 200, authors (when present) at most
250 characters. -/
theorem C7_length_bounds (text : Str) :
    ∀ r ∈ parseReferences text,
      r.text.length ≤ 500 ∧
      (∀ ti, r.title = some ti → ti.length ≤ 200) ∧
      (∀ au, r.authors = some au → au.length ≤ 250) := by
  intro r hr
  rcases parseLoop_mem _ _ _ hr with h | ⟨c, l, hp⟩
  · cases h
  · rcases processLine_spec hp with ⟨t, y, _, htext, _, _, htitle, hauthors⟩
    refine ⟨?_, ?_, ?_⟩
    · rw [htext]
      exact List.length_take_le _ _
    · intro ti hti
      rw [htitle] at hti
      exact extractTitle_len hti
    · intro au hau
      rcases hauthors with h' | h'
      · rw [h'] at hau; cases hau
      · rw [h'] at hau
        exact extractAuthors_len hau

/-- Witness for C7 at the first concrete record. -/
theorem C7_witness :
    parsedA.text.length ≤ 500 ∧
    (∀ ti, parsedA.title = some ti → ti.length ≤ 200) ∧
    (∀ au, parsedA.authors = some au → au.length ≤ 250) :=
  C7_length_bounds c5Text parsedA (by decide)

/-- Counterexample for C5: on c5Text the first emitted record carries title
present but equal to the empty string, and the second emitted record carries
authors present but equal to the empty string, so the optional fields are not
always absent-or-non-empty. -/
theorem C5_counterexample :
    ((parseReferences c5Text).map ParsedReference.title).take 2 =
      [some [], some "something longer here".toList] ∧
    ((parseReferences c5Text).map ParsedReference.authors).take 2 =
      [none, some []] :=
  ⟨rfl, rfl⟩

/-- C5 as amended: the doi and year fields are absent or non-empty; the title
and authors fields, when present, may be the empty string (the extracted text
can trim to empty). -/
theorem C5_amended_doi_year_nonempty (text : Str) :
    ∀ r ∈ parseReferences text,
      (∀ d, r.doi = some d → d ≠ []) ∧ (∀ y, r.year = some y → y ≠ []) := by
  intro r hr
  rcases parseLoop_mem _ _ _ hr with h | ⟨c, l, hp⟩
  · cases h
  · rcases processLine_spec hp with ⟨t, y, hy, _, hyr, hdoi, _, _⟩
    constructor
    · intro d hd
      rw [hdoi] at hd
      rcases scanFirst_some hd with ⟨s', hs'⟩
      exact matchDoiAt_ne_nil hs'
    · intro y' hy'
      rw [hyr] at hy'
      injection hy' with h'
      subst h'
      intro he
      have := extractYear_len hy
      simp [he] at this

/-- Witness for the amended C5 at the first concrete record. -/
theorem C5_witness :
    (∀ d, parsedA.doi = some d → d ≠ []) ∧
    (∀ y, parsedA.year = some y → y ≠ []) :=
  C5_amended_doi_year_nonempty c5Text parsedA (by decide)

/-- The consuming split never returns an empty chunk list. -/
lemma splitOnSep_ne_nil (p : Char → Bool) (l : Str) : splitOnSep p l ≠ [] := by
  cases l with
  | nil => exact List.cons_ne_nil _ _
  | cons c t =>
    unfold splitOnSep
    split
    · exact List.cons_ne_nil _ _
    · split
      · exact List.cons_ne_nil _ _
      · exact List.cons_ne_nil _ _

/-- The first chunk of the consuming split is a prefix of the input, and every
chunk occurs contiguously inside the input. -/
lemma splitOnSep_decomp (p : Char → Bool) :
    ∀ (l : Str) (hd : Str) (tl : List Str), splitOnSep p l = hd :: tl →
      (∃ v, l = hd ++ v) ∧ ∀ c ∈ hd :: tl, ∃ u v, l = u ++ c ++ v := by
  intro l
  induction l with
  | nil =>
    intro hd tl h
    have h' : ([[]] : List Str) = hd :: tl := h
    injection h' with h1 h2
    subst h1
    subst h2
    refine ⟨⟨[], rfl⟩, ?_⟩
    intro c hc
    rw [List.mem_singleton] at hc
    subst hc
    exact ⟨[], [], rfl⟩
  | cons a t ih =>
    intro hd tl h
    unfold splitOnSep at h
    split at h
    · injection h with h1 h2
      subst h1
      refine ⟨⟨a :: t, rfl⟩, ?_⟩
      intro c hc
      rcases List.mem_cons.mp hc with hc | hc
      · subst hc
        exact ⟨[], a :: t, rfl⟩
      · obtain ⟨hd', tl', hs⟩ : ∃ hd' tl', splitOnSep p t = hd' :: tl' := by
          cases hs : splitOnSep p t with
          | nil => exact absurd hs (splitOnSep_ne_nil p t)
          | cons x y => exact ⟨x, y, rfl⟩
        have hmem : c ∈ hd' :: tl' := by
          rw [← hs, h2]
          exact hc
        rcases (ih hd' tl' hs).2 c hmem with ⟨u, v, huv⟩
        exact ⟨a :: u, v, by simp [huv]⟩
    · split at h
      · rename_i hnil
        exact absurd hnil (splitOnSep_ne_nil p t)
      · rename_i h' r' hs
        injection h with h1 h2
        subst h1
        rcases ih h' r' hs with ⟨⟨v, hv⟩, hall⟩
        constructor
        · exact ⟨v, by simp [hv]⟩
        · intro c hc
          rcases List.mem_cons.mp hc with hc | hc
          · subst hc
            exact ⟨[], v, by simp [hv]⟩
          · have hmem : c ∈ h' :: r' := List.mem_cons_of_mem h' (h2 ▸ hc)
            rcases hall c hmem with ⟨u, v2, huv⟩
            exact ⟨a :: u, v2, by simp [huv]⟩

/-- The trimmed string occurs contiguously inside the original. -/
lemma trimJS_decomp (s : Str) : ∃ u v, s = u ++ trimJS s ++ v := by
  refine ⟨s.takeWhile isSpaceJS,
    ((s.dropWhile isSpaceJS).reverse.takeWhile isSpaceJS).reverse, ?_⟩
  unfold trimJS
  rw [List.append_assoc, ← List.reverse_append,
    List.takeWhile_append_dropWhile, List.reverse_reverse,
    List.takeWhile_append_dropWhile]

/-- A list is a Boolean prefix of itself followed by anything. -/
lemma isPrefixOf_append : ∀ (l r : Str), l.isPrefixOf (l ++ r) = true := by
  intro l r
  induction l with
  | nil => simp
  | cons c t ih => simp [List.isPrefixOf, ih]

/-- The index scan returns the first position at which the needle is a prefix
of the corresponding suffix. -/
lemma indexOfAux_spec (t : Str) :
    ∀ (s : Str) (k i : Nat), indexOfAux t s k = some i →
      ∃ m, i = k + m ∧ t.isPrefixOf (s.drop m) = true ∧
        ∀ j < m, t.isPrefixOf (s.drop j) = false := by
  intro s
  induction s with
  | nil =>
    intro k i h
    unfold indexOfAux at h
    split at h
    · rename_i hp
      injection h with h'
      subst h'
      exact ⟨0, rfl, hp, fun j hj => absurd hj (Nat.not_lt_zero j)⟩
    · cases h
  | cons c r ih =>
    intro k i h
    unfold indexOfAux at h
    split at h
    · rename_i hp
      injection h with h'
      subst h'
      exact ⟨0, rfl, hp, fun j hj => absurd hj (Nat.not_lt_zero j)⟩
    · rename_i hp
      rcases ih (k + 1) i h with ⟨m, him, hpre, hmin⟩
      refine ⟨m + 1, by omega, hpre, ?_⟩
      intro j hj
      cases j with
      | zero =>
        cases hb : t.isPrefixOf ((c :: r).drop 0) with
        | false => rfl
        | true => exact absurd hb hp
      | succ j' => exact hmin j' (by omega)

/-- The index scan succeeds whenever the needle occurs at some suffix. -/
lemma indexOfAux_isSome (t : Str) :
    ∀ (s : Str) (k : Nat), (∃ m, t.isPrefixOf (s.drop m) = true) →
      (indexOfAux t s k).isSome = true := by
  intro s
  induction s with
  | nil =>
    intro k hm
    rcases hm with ⟨m, hm⟩
    unfold indexOfAux
    split
    · rfl
    · rename_i hp
      rw [List.drop_nil] at hm
      exact absurd hm hp
  | cons c r ih =>
    intro k hm
    unfold indexOfAux
    split
    · rfl
    · rename_i hp
      apply ih (k + 1)
      rcases hm with ⟨m, hm⟩
      cases m with
      | zero => exact absurd hm hp
      | succ m' => exact ⟨m', hm⟩

/-- C4 as amended: when some segment's trimmed form matches a header pattern,
findReferencesSection returns i plus the header's length where i is the index
of the FIRST occurrence of that trimmed segment in the whole text — which may
lie strictly before the matched segment itself. -/
theorem C4_amended_first_occurrence (text hline : Str)
    (h : ((splitOnSep dotOrNl text).map trimJS).find? isSectionHeader =
      some hline) :
    ∃ i : Nat, hline.isPrefixOf (text.drop i) = true ∧
      (∀ j < i, hline.isPrefixOf (text.drop j) = false) ∧
      findReferencesSection text = (i : Int) + (hline.length : Int) := by
  have hmem : hline ∈ (splitOnSep dotOrNl text).map trimJS :=
    List.mem_of_find?_eq_some h
  rcases List.mem_map.mp hmem with ⟨chunk, hchunk, htrim⟩
  obtain ⟨hd, tl, hsplit⟩ : ∃ hd tl, splitOnSep dotOrNl text = hd :: tl := by
    cases hs : splitOnSep dotOrNl text with
    | nil => exact absurd hs (splitOnSep_ne_nil _ _)
    | cons x y => exact ⟨x, y, rfl⟩
  rcases (splitOnSep_decomp dotOrNl text hd tl hsplit).2 chunk
    (hsplit ▸ hchunk) with ⟨u, v, huv⟩
  rcases trimJS_decomp chunk with ⟨u2, v2, huv2⟩
  have htext : text = (u ++ u2) ++ (hline ++ (v2 ++ v)) := by
    rw [huv, huv2, htrim]
    simp [List.append_assoc]
  have hocc : hline.isPrefixOf (text.drop (u ++ u2).length) = true := by
    rw [htext, List.drop_left]
    exact isPrefixOf_append hline (v2 ++ v)
  have hsome := indexOfAux_isSome hline text 0 ⟨(u ++ u2).length, hocc⟩
  obtain ⟨i0, hi0⟩ : ∃ i0, indexOfAux hline text 0 = some i0 :=
    Option.isSome_iff_exists.mp hsome
  rcases indexOfAux_spec hline text 0 i0 hi0 with ⟨m, him, hpre, hmin⟩
  refine ⟨m, hpre, hmin, ?_⟩
  unfold findReferencesSection
  dsimp only
  rw [h]
  dsimp only
  unfold jsIndexOf
  rw [hi0]
  dsimp only
  rw [him]
  norm_num

/-- Counterexample for C4: in ex4Text the matching segment is the third chunk
"References", occupying offsets 25 to 35 of the text, so the claim demands
the return value 35; the locator returns 18 instead, because the trimmed
header string already occurs at offset 8 inside an earlier sentence. -/
theorem C4_counterexample :
    trimJS ((splitOnSep dotOrNl ex4Text).getD 2 []) = "References".toList ∧
    isSectionHeader ("References".toList) = true ∧
    (∀ c ∈ (splitOnSep dotOrNl ex4Text).take 2,
      isSectionHeader (trimJS c) = false) ∧
    (ex4Text.drop 25).take 10 = "References".toList ∧
    findReferencesSection ex4Text = 18 ∧
    findReferencesSection ex4Text ≠ 25 + 10 :=
  ⟨rfl, rfl, by decide, rfl, rfl, by decide⟩

/-- Witness for the amended C4 on the concrete document. -/
theorem C4_witness :
    ∃ i : Nat, ("References".toList).isPrefixOf (ex4Text.drop i) = true ∧
      (∀ j < i, ("References".toList).isPrefixOf (ex4Text.drop j) = false) ∧
      findReferencesSection ex4Text =
        (i : Int) + (("References".toList).length : Int) :=
  C4_amended_first_occurrence ex4Text "References".toList (by decide)

end Knot
